import Mathlib

/-!
# Verification of the NEST MPI test wrapper (`mpi_test_wrapper.py`)

A shallow embedding of `testsuite/pytests/sli2py_mpi/mpi_test_wrapper.py`:

* `_RemoveDecoratorsAndMPITestImports` (an `ast.NodeTransformer`) over a small
  model of Python statement trees;
* `MPITestWrapper._params_as_str` over a small model of Python values;
* `MPITestWrapper.__init__` (the iterability check of `procs_lst`);
* the `mpirun` loop of `MPITestWrapper.__call__` with the external launcher
  modelled as an oracle from process count to exit status and captured streams;
* `MPITestWrapper._collect_result_by_label` with the file system modelled as a
  list of named files, `Path.glob` as a `*`-wildcard matcher, and
  `pandas.read_csv` as a tab-separated parser that ignores `#` comments and
  raises `EmptyDataError` when nothing is left to parse;
* `MPITestAssertEqual.assert_correct_results` with `pandas.concat`,
  `DataFrame.sort_values` and `pandas.testing.assert_frame_equal` modelled at
  their interface (frames are column lists plus integer row lists).

Python exceptions are modelled with `Except`; a raised exception is an
`Except.error` carrying a constructor of `PyError`.
-/

/-! ## Python statement trees and `_RemoveDecoratorsAndMPITestImports`

Statements are modelled at the granularity the transformer distinguishes:
function definitions (with decorator list and body), class definitions (with
decorator list and body), `import` statements (the list of imported names),
`from … import …` statements (module plus imported names), and every other
statement as an opaque payload.  `ast.NodeTransformer.visit` dispatches on the
node type: `visit_FunctionDef` clears the decorator list and returns the node
*without* recursing into its body; `Import`/`ImportFrom` nodes are dropped
when any imported name starts with `"MPITest"`; all other node kinds fall back
to `generic_visit`, which recurses into child statements — in particular into
class bodies. -/

inductive PyStmt where
  | funcDef (name : String) (decorators : List String) (body : List PyStmt)
  | classDef (name : String) (decorators : List String) (body : List PyStmt)
  | importStmt (aliases : List String)
  | importFrom (module : String) (aliases : List String)
  | simple (code : String)

/-- `alias.name.startswith("MPITest")` from `visit_Import` / `visit_ImportFrom`. -/
def isMPITestAlias (s : String) : Bool :=
  "MPITest".data.isPrefixOf s.data

mutual

/-- One `visit` dispatch of `_RemoveDecoratorsAndMPITestImports`: `none`
models the visitor returning `None` (node deleted). -/
def transformStmt : PyStmt → Option PyStmt
  | .funcDef name _ body => some (.funcDef name [] body)
  | .classDef name decorators body => some (.classDef name decorators (transformStmts body))
  | .importStmt aliases =>
      if aliases.any isMPITestAlias then none else some (.importStmt aliases)
  | .importFrom module aliases =>
      if aliases.any isMPITestAlias then none else some (.importFrom module aliases)
  | .simple code => some (.simple code)

/-- `generic_visit` over a statement list: transform each child, dropping the
ones whose visitor returned `None`. -/
def transformStmts : List PyStmt → List PyStmt
  | [] => []
  | s :: rest =>
      match transformStmt s with
      | none => transformStmts rest
      | some s' => s' :: transformStmts rest

end

/-- Modelled from the spec (§4.1 SourceIsolator), for comparison with the
code's transformer: strip decorators from the test procedure's own definition
only, drop imports of `MPITest*` names, and leave every other statement
unmodified. -/
def specIsolate (procName : String) (stmts : List PyStmt) : List PyStmt :=
  stmts.filterMap fun s =>
    match s with
    | .funcDef name decorators body =>
        if name = procName then some (.funcDef name [] body)
        else some (.funcDef name decorators body)
    | .classDef name decorators body => some (.classDef name decorators body)
    | .importStmt aliases =>
        if aliases.any isMPITestAlias then none else some (.importStmt aliases)
    | .importFrom module aliases =>
        if aliases.any isMPITestAlias then none else some (.importFrom module aliases)
    | .simple code => some (.simple code)

mutual

/-- A statement is clean when it carries no decorators and no `MPITest*`
imports, recursively through nested bodies. -/
def stmtClean : PyStmt → Bool
  | .funcDef _ decorators body => decorators.isEmpty && stmtsClean body
  | .classDef _ decorators body => decorators.isEmpty && stmtsClean body
  | .importStmt aliases => !(aliases.any isMPITestAlias)
  | .importFrom _ aliases => !(aliases.any isMPITestAlias)
  | .simple _ => true

def stmtsClean : List PyStmt → Bool
  | [] => true
  | s :: rest => stmtClean s && stmtsClean rest

end

mutual

/-- Total number of decorators in a statement, nested bodies included; used to
separate trees that differ only in decorator lists. -/
def stmtDecorCount : PyStmt → Nat
  | .funcDef _ decorators body => decorators.length + stmtsDecorCount body
  | .classDef _ decorators body => decorators.length + stmtsDecorCount body
  | .importStmt _ => 0
  | .importFrom _ _ => 0
  | .simple _ => 0

def stmtsDecorCount : List PyStmt → Nat
  | [] => 0
  | s :: rest => stmtDecorCount s + stmtsDecorCount rest

end

/-! ## Python values and `MPITestWrapper._params_as_str`

`_params_as_str` renders each argument inside an f-string, so a non-callable
argument contributes `str(arg)` and a callable one `arg.__name__`.  Values are
modelled as integers, strings and named functions. -/

inductive PyVal where
  | intV (n : Int)
  | strV (s : String)
  | funcV (name : String)
deriving DecidableEq, Repr

/-- `inspect.isfunction`. -/
def pyIsFunction : PyVal → Bool
  | .funcV _ => true
  | _ => false

/-- Python `str()` as applied by an f-string (for a function the interpreter
would print its address; the code never takes this branch). -/
def pyStr : PyVal → String
  | .intV n => toString n
  | .strV s => s
  | .funcV name => "<function " ++ name ++ ">"

/-- `arg.__name__`; only meaningful on functions. -/
def pyFuncName : PyVal → String
  | .funcV name => name
  | _ => ""

/-- `f"{arg if not inspect.isfunction(arg) else arg.__name__}"`. -/
def renderArg (v : PyVal) : String :=
  if pyIsFunction v then pyFuncName v else pyStr v

/-- `", ".join(parts)`. -/
def joinComma : List String → String
  | [] => ""
  | [p] => p
  | p :: rest => p ++ ", " ++ joinComma rest

/-- `MPITestWrapper._params_as_str`: join the rendered positional arguments,
join the rendered `key=value` pairs, then join the two parts, skipping a part
when it is the empty string (Python's `if part` filter). -/
def paramsAsStr (args : List PyVal) (kwargs : List (String × PyVal)) : String :=
  let partArgs := joinComma (args.map renderArg)
  let partKwargs := joinComma (kwargs.map fun kv => kv.1 ++ "=" ++ renderArg kv.2)
  joinComma ([partArgs, partKwargs].filter (· ≠ ""))

/-- Python `repr` restricted to the modelled values: the source-literal
representation of a value (strings are quoted). -/
def pyRepr : PyVal → String
  | .intV n => toString n
  | .strV s => "'" ++ s ++ "'"
  | .funcV name => "<function " ++ name ++ ">"

/-- Modelled from the spec (§4.2 RunnerGenerator and §8 *Argument rendering*):
a non-callable argument rendered via its literal representation, a callable
argument by name. -/
def specRenderArg (v : PyVal) : String :=
  if pyIsFunction v then pyFuncName v else pyRepr v

/-- Modelled from the spec (§4.2 RunnerGenerator and §8 *Argument rendering*):
positional arguments first, then `key=value` pairs, comma-separated. -/
def specParamsAsStr (args : List PyVal) (kwargs : List (String × PyVal)) : String :=
  joinComma (args.map specRenderArg ++ kwargs.map fun kv => kv.1 ++ "=" ++ specRenderArg kv.2)

/-- The call line `{fname}({params})` of `RUNNER_TEMPLATE`. -/
def callText (fname : String) (args : List PyVal) (kwargs : List (String × PyVal)) : String :=
  fname ++ "(" ++ paramsAsStr args kwargs ++ ")"

/-! ## `MPITestWrapper.__init__`

The constructor's only validation is `iter(procs_lst)`, raising `TypeError`
when the argument is not iterable.  The argument is modelled as either an
iterable list of process counts or an opaque non-iterable value. -/

inductive PyError where
  | typeError
  | assertionError (msg : String)
  | indexError
  | valueError
  | keyError
  | notImplementedError
  | frameCompareError
deriving DecidableEq, Repr

inductive ProcsArg where
  | pyList (l : List Nat)
  | nonIterable (repr : String)
deriving DecidableEq, Repr

/-- `iter(procs_lst)` succeeds exactly on iterable values. -/
def procsArgIterable : ProcsArg → Bool
  | .pyList _ => true
  | .nonIterable _ => false

structure WrapperState where
  procsLst : List Nat
  debug : Bool
deriving DecidableEq, Repr

/-- `MPITestWrapper.__init__`: raise `TypeError` for a non-iterable
`procs_lst`, otherwise store the list and the debug flag unchanged. -/
def mpiTestWrapperInit (arg : ProcsArg) (debug : Bool) : Except PyError WrapperState :=
  match arg with
  | .pyList l => .ok ⟨l, debug⟩
  | .nonIterable _ => .error .typeError

/-! ## The `mpirun` loop of `MPITestWrapper.__call__`

The external launcher is an oracle mapping a process count to the run's exit
status and captured streams.  The loop is modelled together with the list of
levels actually launched, so fail-fast behaviour is observable.  On failure
the handler prints the command, the temporary directory and both captured
streams, then re-raises the `CalledProcessError` (which itself carries the
command, the return code and both streams); `ProcessFailure` records
everything surfaced on that path. -/

structure RunResult where
  returncode : Int
  stdout : String
  stderr : String
deriving DecidableEq, Repr

/-- `["mpirun", "-np", str(procs), "--oversubscribe", "python", self.RUNNER]`. -/
def mpiCommand (procs : Nat) : List String :=
  ["mpirun", "-np", toString procs, "--oversubscribe", "python", "runner.py"]

structure ProcessFailure where
  cmd : List String
  returncode : Int
  tmpdir : String
  stdout : String
  stderr : String
deriving DecidableEq, Repr

/-- The `for procs in self._procs_lst` loop: run the command for each level in
order; on the first non-zero exit status stop and surface the failure.  The
first component lists the levels for which `subprocess.run` was invoked. -/
def runLevels (tmpdir : String) (run : Nat → RunResult) :
    List Nat → List Nat × Except ProcessFailure (List (Nat × RunResult))
  | [] => ([], .ok [])
  | procs :: rest =>
      let r := run procs
      if r.returncode ≠ 0 then
        ([procs], .error ⟨mpiCommand procs, r.returncode, tmpdir, r.stdout, r.stderr⟩)
      else
        let tail := runLevels tmpdir run rest
        (procs :: tail.1, tail.2.map fun tl => (procs, r) :: tl)

/-! ## File names, globbing and `str.format`

Labels and file names are lists of characters.  `Path.glob` is modelled by a
matcher in which `*` matches any (possibly empty) character sequence and every
other pattern character matches itself — the label patterns of this module
contain no other glob metacharacters.  `str.format` replaces successive `{}`
placeholders by the given arguments, raising `IndexError` (modelled as `none`)
when there are more placeholders than arguments; surplus arguments are
ignored, as in Python. -/

/-- `*` absorbs any number of leading characters before the rest of the
pattern (decided by `m`) takes over. -/
def globStar (m : List Char → Bool) : List Char → Bool
  | [] => m []
  | c :: cs => m (c :: cs) || globStar m cs

def globMatch : List Char → List Char → Bool
  | [], s => s.isEmpty
  | '*' :: ps, s => globStar (globMatch ps) s
  | p :: ps, s =>
      match s with
      | [] => false
      | c :: cs => p == c && globMatch ps cs

/-- Split a format string at each `{}` placeholder. -/
def splitFmt : List Char → List (List Char)
  | [] => [[]]
  | '{' :: '}' :: rest => [] :: splitFmt rest
  | c :: rest =>
      match splitFmt rest with
      | [] => [[c]]
      | f :: r => (c :: f) :: r

/-- Interleave the pieces of a split format string with the arguments. -/
def interleaveFmt : List (List Char) → List (List Char) → List Char
  | [], _ => []
  | [p], _ => p
  | p :: ps, [] => p ++ interleaveFmt ps []
  | p :: ps, a :: rest => p ++ a ++ interleaveFmt ps rest

/-- `tmpl.format(*args)`: `none` models `IndexError` (more `{}` placeholders
than arguments). -/
def pyFormat (tmpl : List Char) (args : List (List Char)) : Option (List Char) :=
  let parts := splitFmt tmpl
  if parts.length ≤ args.length + 1 then some (interleaveFmt parts args) else none

/-! ## `pandas.read_csv` at its interface

`read_csv(f, sep="\t", comment="#")` truncates each line at the first `#`,
skips lines that are then empty, raises `EmptyDataError` when no line is
left, and otherwise takes the first remaining line as the column header and
parses each later line as one tab-separated data row.  Data cells are
modelled as integers (NEST writes numeric `.dat` files). -/

structure Frame where
  columns : List (List Char)
  rows : List (List Int)
deriving DecidableEq, Repr

inductive PdReadError where
  | emptyData
deriving DecidableEq, Repr

/-- Truncate a line at the first comment marker. -/
def stripComment (line : List Char) : List Char :=
  line.takeWhile (· ≠ '#')

/-- The lines `read_csv` actually parses. -/
def csvLines (lines : List (List Char)) : List (List Char) :=
  (lines.map stripComment).filter (· ≠ [])

def splitTab : List Char → List (List Char)
  | [] => [[]]
  | c :: rest =>
      if c = '\t' then [] :: splitTab rest
      else
        match splitTab rest with
        | [] => [[c]]
        | f :: r => (c :: f) :: r

def parseDigits (s : List Char) : Nat :=
  s.foldl (fun n c => 10 * n + (c.toNat - 48)) 0

def parseIntCell : List Char → Int
  | '-' :: rest => -(parseDigits rest : Int)
  | s => (parseDigits s : Int)

def readCsv (lines : List (List Char)) : Except PdReadError Frame :=
  match csvLines lines with
  | [] => .error .emptyData
  | headerLine :: dataLines =>
      .ok ⟨splitTab headerLine, dataLines.map fun l => (splitTab l).map parseIntCell⟩

/-! ## `MPITestWrapper._collect_result_by_label`

The temporary directory is a list of files, each a name plus raw content
lines.  The label is first completed to end in `-{}-{}.dat` (with a bare
`assert` when it ends in neither accepted suffix), then the directory is
globbed once with both slots wildcarded (`return None` when nothing matches)
and once per configured process count; each matching file is parsed with
`read_csv`, and a file raising `EmptyDataError` is skipped (`except … pass`). -/

structure DatFile where
  name : List Char
  lines : List (List Char)
deriving DecidableEq, Repr

/-- `SPIKE_LABEL`. -/
def spikeLabel : List Char := "spike-{}".data

/-- `MULTI_LABEL`. -/
def multiLabel : List Char := "multi-{}".data

/-- `OTHER_LABEL`. -/
def otherLabel : List Char := "other-{}-{}.dat".data

def fullDatSuffix : List Char := "-{}-{}.dat".data

def shortSuffix : List Char := "-{}".data

def addedSuffix : List Char := "-{}.dat".data

def starStr : List Char := "*".data

def natStr (n : Nat) : List Char := (toString n).data

/-- The label-completion prologue: keep a label already ending in
`-{}-{}.dat`; extend a label ending in `-{}` by `-{}.dat`; otherwise the bare
`assert` fails. -/
def normalizeLabel (label : List Char) : Except PyError (List Char) :=
  if fullDatSuffix.isSuffixOf label then .ok label
  else if shortSuffix.isSuffixOf label then .ok (label ++ addedSuffix)
  else .error (.assertionError "")

abbrev PerLevel := List (Nat × List Frame)

/-- The frames parsed from the files matching one level's pattern, in
directory order, skipping files on which `read_csv` raises `EmptyDataError`. -/
def levelFrames (fs : List DatFile) (patLevel : List Char) : List Frame :=
  (fs.filter fun f => globMatch patLevel f.name).filterMap fun f => (readCsv f.lines).toOption

/-- The `for n_procs in self._procs_lst` loop building `res`. -/
def collectLevels (fs : List DatFile) (lbl : List Char) : List Nat → Except PyError PerLevel
  | [] => .ok []
  | n :: rest =>
      match pyFormat lbl [natStr n, starStr] with
      | none => .error .indexError
      | some patLevel =>
          (collectLevels fs lbl rest).map fun tl => (n, levelFrames fs patLevel) :: tl

def collectResultByLabel (fs : List DatFile) (procs : List Nat) (label : List Char) :
    Except PyError (Option PerLevel) :=
  (normalizeLabel label).bind fun lbl =>
    match pyFormat lbl [starStr, starStr] with
    | none => .error .indexError
    | some patAll =>
        if fs.all fun f => !globMatch patAll f.name then .ok none
        else (collectLevels fs lbl procs).map some

/-! ## `MPITestAssertEqual.assert_correct_results`

`pandas.concat` on an empty list raises `ValueError`; on a non-empty list of
same-shaped frames it appends the rows (`ignore_index=True` renumbers the
index, which the model does not track).  `DataFrame.sort_values(by=…)` raises
`KeyError` when a sort column is missing and otherwise reorders the rows by
the named columns, compared lexicographically; `assert_frame_equal` demands
identical columns and identical row values.  A dictionary is truthy exactly
when it is non-empty, and `None` is falsy. -/

def lexLe : List Int → List Int → Bool
  | [], _ => true
  | _ :: _, [] => false
  | a :: restA, b :: restB =>
      if a < b then true else if b < a then false else lexLe restA restB

def keyOf (idxs : List Nat) (row : List Int) : List Int :=
  idxs.map fun i => row.getD i 0

def insertRow (le : List Int → List Int → Bool) (x : List Int) :
    List (List Int) → List (List Int)
  | [] => [x]
  | y :: ys => if le x y then x :: y :: ys else y :: insertRow le x ys

def sortRowsBy (le : List Int → List Int → Bool) : List (List Int) → List (List Int)
  | [] => []
  | x :: xs => insertRow le x (sortRowsBy le xs)

/-- `frame.sort_values(by=byCols, ignore_index=True)`. -/
def sortValues (f : Frame) (byCols : List (List Char)) : Except PyError Frame :=
  match byCols.mapM fun c => f.columns.indexOf? c with
  | none => .error .keyError
  | some idxs =>
      .ok ⟨f.columns, sortRowsBy (fun r s => lexLe (keyOf idxs r) (keyOf idxs s)) f.rows⟩

/-- `pd.concat(frames, ignore_index=True)`. -/
def concatFrames : List Frame → Except PyError Frame
  | [] => .error .valueError
  | f :: rest => .ok ⟨f.columns, ((f :: rest).map Frame.rows).flatten⟩

/-- One level's combined frame, sorted by the given key columns. -/
def combinedSorted (byCols : List (List Char)) (frames : List Frame) : Except PyError Frame :=
  (concatFrames frames).bind fun c => sortValues c byCols

/-- `by=["time_step", "time_offset", "sender"]`. -/
def spikeSortBy : List (List Char) := ["time_step".data, "time_offset".data, "sender".data]

/-- The list comprehension over `values()`: one combined-sorted frame per
level, in dictionary (insertion) order. -/
def mapCombinedSorted (byCols : List (List Char)) : PerLevel → Except PyError (List Frame)
  | [] => .ok []
  | p :: rest =>
      (combinedSorted byCols p.2).bind fun f =>
        (mapCombinedSorted byCols rest).map fun tl => f :: tl

/-- `if self._spike:` block. -/
def spikeBlock (spike : Option PerLevel) : Except PyError (List (List Frame)) :=
  match spike with
  | none => .ok []
  | some sp =>
      if sp.isEmpty then .ok []
      else (mapCombinedSorted spikeSortBy sp).map fun frames => [frames]

/-- `if self._multi: raise NotImplementedError(…)`. -/
def multiBlock (multi : Option PerLevel) : Except PyError Unit :=
  match multi with
  | none => .ok ()
  | some m => if m.isEmpty then .ok () else .error .notImplementedError

/-- `if self._other:` block: `next(iter(self._other.values()))[0]` raises
`IndexError` when the first level's frame list is empty; its columns, in
their existing order, are the sort key for every level. -/
def otherBlock (other : Option PerLevel) (acc : List (List Frame)) :
    Except PyError (List (List Frame)) :=
  match other with
  | none => .ok acc
  | some ot =>
      match ot with
      | [] => .ok acc
      | (_, firstFrames) :: _ =>
          match firstFrames with
          | [] => .error .indexError
          | f0 :: _ => (mapCombinedSorted f0.columns ot).map fun frames => acc ++ [frames]

/-- `for r in res[1:]: pd.testing.assert_frame_equal(res[0], r)`: fails on a
frame differing from the first. -/
def checkRest : List Frame → Except PyError Unit
  | [] => .ok ()
  | r0 :: rest =>
      if rest.all fun r => decide (r = r0) then .ok () else .error .frameCompareError

/-- One `res` entry of the final loop: the length assertion, then the frame
comparisons against `res[0]`. -/
def checkOne (procs : List Nat) (res : List Frame) : Except PyError Unit :=
  if res.length = procs.length then checkRest res
  else .error (.assertionError "Could not collect data for all procs")

def checkAll (procs : List Nat) : List (List Frame) → Except PyError Unit
  | [] => .ok ()
  | res :: rest => (checkOne procs res).bind fun _ => checkAll procs rest

/-- `MPITestAssertEqual.assert_correct_results`, after collection: the three
kind blocks in source order, the `assert all_res` no-data check, then the
comparison loop. -/
def assertEqualResults (procs : List Nat) (spike multi other : Option PerLevel) :
    Except PyError Unit :=
  (spikeBlock spike).bind fun acc1 =>
    (multiBlock multi).bind fun _ =>
      (otherBlock other acc1).bind fun allRes =>
        if allRes.isEmpty then .error (.assertionError "No test data collected")
        else checkAll procs allRes

/-- `assert_correct_results` end to end: `collect_results` for the three
labels, then the comparison. -/
def assertCorrectResults (fs : List DatFile) (procs : List Nat) : Except PyError Unit :=
  (collectResultByLabel fs procs spikeLabel).bind fun spike =>
    (collectResultByLabel fs procs multiLabel).bind fun multi =>
      (collectResultByLabel fs procs otherLabel).bind fun other =>
        assertEqualResults procs spike multi other

/-! ## Derived notions used by the statements below -/

/-- `spike-{}`, completed and with both slots wildcarded. -/
def spikePatAll : List Char := "spike-*-*.dat".data

/-- `multi-{}`, completed and with both slots wildcarded. -/
def multiPatAll : List Char := "multi-*-*.dat".data

/-- `other-{}-{}.dat` with both slots wildcarded. -/
def otherPatAll : List Char := "other-*-*.dat".data

/-- Python truthiness of the per-kind collection result: `None` and the empty
dictionary are falsy. -/
def perTruthy (o : Option PerLevel) : Prop :=
  o.getD [] ≠ []

instance (o : Option PerLevel) : Decidable (perTruthy o) := by
  unfold perTruthy; infer_instance

/-- One kind passes the comparison loop: combining and sorting succeeds for
every level, one frame per configured level comes out, and every level's
combined-sorted frame equals the first level's. -/
def levelsOk (procs : List Nat) (byCols : List (List Char)) (per : PerLevel) : Prop :=
  ∃ f0 rest, mapCombinedSorted byCols per = .ok (f0 :: rest) ∧
    (f0 :: rest).length = procs.length ∧ ∀ f ∈ rest, f = f0

/-- `next(iter(self._other.values()))[0]`: the first frame of the first
level's list, when both exist. -/
def firstOtherFrame (per : PerLevel) : Option Frame :=
  per.head?.bind fun p => p.2.head?

/-- Arguments on which `str` agrees with the literal representation and the
rendered text is non-empty: non-strings whose function name (when callable)
is non-empty. -/
def okVal : PyVal → Bool
  | .intV _ => true
  | .strV _ => false
  | .funcV name => !(name == "")

/-- Module shapes in which the only top-level function definition is the test
procedure itself and no top-level class definition occurs. -/
def flatStmtOk (procName : String) : PyStmt → Bool
  | .funcDef name _ _ => name == procName
  | .classDef _ _ _ => false
  | .importStmt _ => true
  | .importFrom _ _ => true
  | .simple _ => true

mutual

theorem transformStmt_of_clean (s : PyStmt) (h : stmtClean s = true) :
    transformStmt s = some s := by
  cases s with
  | funcDef name decorators body =>
      simp only [stmtClean, Bool.and_eq_true, List.isEmpty_iff] at h
      simp [transformStmt, h.1]
  | classDef name decorators body =>
      simp only [stmtClean, Bool.and_eq_true] at h
      simp [transformStmt, transformStmts_of_clean body h.2]
  | importStmt aliases =>
      simp only [stmtClean, Bool.not_eq_true'] at h
      simp [transformStmt, h]
  | importFrom module aliases =>
      simp only [stmtClean, Bool.not_eq_true'] at h
      simp [transformStmt, h]
  | simple code => simp [transformStmt]

theorem transformStmts_of_clean (l : List PyStmt) (h : stmtsClean l = true) :
    transformStmts l = l := by
  cases l with
  | nil => simp [transformStmts]
  | cons s rest =>
      simp only [stmtsClean, Bool.and_eq_true] at h
      simp [transformStmts, transformStmt_of_clean s h.1, transformStmts_of_clean rest h.2]

end

/-! ## General helper lemmas -/

theorem exceptBind_ok_iff {ε α β : Type} (x : Except ε α) (f : α → Except ε β) (b : β) :
    x.bind f = .ok b ↔ ∃ a, x = .ok a ∧ f a = .ok b := by
  cases x <;> simp [Except.bind]

theorem exceptMap_ok_iff {ε α β : Type} (x : Except ε α) (f : α → β) (b : β) :
    Except.map f x = .ok b ↔ ∃ a, x = .ok a ∧ f a = b := by
  cases x <;> simp [Except.map]

theorem exceptBind_error {ε α β : Type} (x : Except ε α) (f : α → Except ε β) (e : ε)
    (h : x = .error e) : x.bind f = .error e := by
  subst h; rfl

theorem exceptBind_ok {ε α β : Type} (x : Except ε α) (f : α → Except ε β) (a : α)
    (h : x = .ok a) : x.bind f = f a := by
  subst h; rfl

/-! ## C3: fail-fast orchestration -/

/-- **C3.** If every parallelism level before `l` exits with status `0` and
the run at level `l` exits non-zero, then the loop launches exactly the
levels up to and including `l` — no later level is attempted — and the
surfaced failure carries the failed command (which names level `l`), the
working-directory path, and the captured standard output and standard error
of the failed run. -/
theorem runLevels_fail_fast (tmpdir : String) (run : Nat → RunResult)
    (pre post : List Nat) (l : Nat)
    (hpre : ∀ q ∈ pre, (run q).returncode = 0)
    (hl : (run l).returncode ≠ 0) :
    runLevels tmpdir run (pre ++ l :: post) =
      (pre ++ [l],
        .error ⟨mpiCommand l, (run l).returncode, tmpdir, (run l).stdout, (run l).stderr⟩) := by
  induction pre with
  | nil => simp [runLevels, hl]
  | cons q qs ih =>
      have h0 : (run q).returncode = 0 := hpre q (List.mem_cons_self q qs)
      have hqs : ∀ q' ∈ qs, (run q').returncode = 0 := fun q' hq' =>
        hpre q' (List.mem_cons_of_mem q hq')
      simp [runLevels, h0, ih hqs, Except.map]

/-- Witness for C3: levels `[1, 2, 4]` with a failure at level `2`: only
levels `1` and `2` are launched and the error names level `2`'s command. -/
theorem runLevels_fail_fast_witness :
    runLevels "/tmp/x" (fun n => if n = 2 then ⟨1, "out", "err"⟩ else ⟨0, "", ""⟩) [1, 2, 4] =
      ([1, 2], .error ⟨mpiCommand 2, 1, "/tmp/x", "out", "err"⟩) :=
  runLevels_fail_fast "/tmp/x" (fun n => if n = 2 then ⟨1, "out", "err"⟩ else ⟨0, "", ""⟩)
    [1] [4] 2 (by intro q hq; simp at hq; subst hq; rfl) (by simp)

/-! ## C9: label suffix normalization -/

/-- **C9.** A label ending neither in `-{}-{}.dat` nor in `-{}` makes the
collector fail with the bare assertion before the file system is consulted
(the error is independent of the directory contents); a label ending in one
of the two suffixes never reaches the assertion and is completed to end in
`-{}-{}.dat`. -/
theorem collect_label_suffix_assertion (label : List Char) :
    (fullDatSuffix.isSuffixOf label = false → shortSuffix.isSuffixOf label = false →
      ∀ fs procs, collectResultByLabel fs procs label = .error (.assertionError "")) ∧
    ((fullDatSuffix.isSuffixOf label = true ∨ shortSuffix.isSuffixOf label = true) →
      ∃ lbl, normalizeLabel label = .ok lbl ∧ fullDatSuffix.isSuffixOf lbl = true) := by
  constructor
  · intro h1 h2 fs procs
    unfold collectResultByLabel
    rw [show normalizeLabel label = .error (.assertionError "") by
      simp [normalizeLabel, h1, h2]]
    rfl
  · intro h
    by_cases hfull : fullDatSuffix.isSuffixOf label = true
    · exact ⟨label, by simp [normalizeLabel, hfull], hfull⟩
    · have hshort : shortSuffix.isSuffixOf label = true := by
        rcases h with h | h
        · exact absurd h hfull
        · exact h
      refine ⟨label ++ addedSuffix, by simp [normalizeLabel, hfull, hshort], ?_⟩
      rw [List.isSuffixOf_iff_suffix] at hshort ⊢
      obtain ⟨t, ht⟩ := hshort
      rw [← ht, List.append_assoc]
      rw [show shortSuffix ++ addedSuffix = fullDatSuffix from rfl]
      exact List.suffix_append t fullDatSuffix

/-- Witness for C9: the label `data` triggers the assertion regardless of the
directory; the label `spike-{}` is normalized to end in `-{}-{}.dat`. -/
theorem collect_label_suffix_assertion_witness :
    collectResultByLabel [⟨"spike-1-0.dat".data, []⟩] [1] "data".data =
        .error (.assertionError "") ∧
      ∃ lbl, normalizeLabel spikeLabel = .ok lbl ∧ fullDatSuffix.isSuffixOf lbl = true :=
  ⟨(collect_label_suffix_assertion "data".data).1 rfl rfl [⟨"spike-1-0.dat".data, []⟩] [1],
    (collect_label_suffix_assertion spikeLabel).2 (Or.inr rfl)⟩

/-! ## C6: nothing collected at all -/

/-- One label collects to `None`: the completed pattern with both slots
wildcarded matches no file in the directory. -/
theorem collect_none (fs : List DatFile) (procs : List Nat) (label lbl patAll : List Char)
    (hnorm : normalizeLabel label = .ok lbl)
    (hpat : pyFormat lbl [starStr, starStr] = some patAll)
    (h : ∀ f ∈ fs, globMatch patAll f.name = false) :
    collectResultByLabel fs procs label = .ok none := by
  unfold collectResultByLabel
  rw [exceptBind_ok (h := hnorm), hpat]
  have hall : (fs.all fun f => !globMatch patAll f.name) = true := by
    rw [List.all_eq_true]
    intro f hf
    rw [h f hf]
    rfl
  simp [hall]

/-- **C6.** When no file in the working directory matches any of the three
naming templates (all slots wildcarded), so that all three kinds collect to
`None`, the comparator fails with the no-data assertion instead of passing. -/
theorem assertCorrectResults_no_data (fs : List DatFile) (procs : List Nat)
    (h : ∀ f ∈ fs, globMatch spikePatAll f.name = false ∧
      globMatch multiPatAll f.name = false ∧ globMatch otherPatAll f.name = false) :
    assertCorrectResults fs procs = .error (.assertionError "No test data collected") := by
  unfold assertCorrectResults
  rw [exceptBind_ok
    (h := collect_none fs procs spikeLabel ("spike-{}-{}.dat".data) spikePatAll rfl rfl
      fun f hf => (h f hf).1)]
  rw [exceptBind_ok
    (h := collect_none fs procs multiLabel ("multi-{}-{}.dat".data) multiPatAll rfl rfl
      fun f hf => (h f hf).2.1)]
  rw [exceptBind_ok
    (h := collect_none fs procs otherLabel otherLabel otherPatAll rfl rfl
      fun f hf => (h f hf).2.2)]
  rfl

/-- Witness for C6: a directory holding only an unrelated file. -/
theorem assertCorrectResults_no_data_witness :
    assertCorrectResults [⟨"notes.txt".data, ["x".data]⟩] [1, 2] =
      .error (.assertionError "No test data collected") :=
  assertCorrectResults_no_data [⟨"notes.txt".data, ["x".data]⟩] [1, 2]
    (by intro f hf; simp at hf; subst hf; exact ⟨rfl, rfl, rfl⟩)

/-! ## C7: constructor validation -/

/-- Counterexample to C7 as stated: an *empty* parallelism list is accepted
by `MPITestWrapper.__init__` without any error — only non-iterable arguments
are rejected at construction. -/
theorem init_accepts_empty_list_counterexample :
    mpiTestWrapperInit (.pyList []) false = .ok ⟨[], false⟩ := rfl

/-- **C7 (amended).** At construction exactly the non-iterable arguments are
rejected (with `TypeError`, the code's rendering of a configuration error);
every list — the empty list included — is accepted unchanged, and an empty
list only fails later, e.g. as the no-data assertion of the comparator. -/
theorem init_typeError_iff_non_iterable :
    (∀ l d, mpiTestWrapperInit (.pyList l) d = .ok ⟨l, d⟩) ∧
      (∀ a d, procsArgIterable a = false → mpiTestWrapperInit a d = .error .typeError) ∧
      assertCorrectResults [] [] = .error (.assertionError "No test data collected") := by
  refine ⟨fun l d => rfl, fun a d ha => ?_, rfl⟩
  cases a with
  | pyList l => exact absurd ha (by simp [procsArgIterable])
  | nonIterable s => rfl

/-- Witness for C7 (amended): a list is accepted, a number is rejected. -/
theorem init_typeError_iff_non_iterable_witness :
    mpiTestWrapperInit (.pyList [1, 2]) true = .ok ⟨[1, 2], true⟩ ∧
      mpiTestWrapperInit (.nonIterable "3") false = .error .typeError :=
  ⟨init_typeError_iff_non_iterable.1 [1, 2] true,
    init_typeError_iff_non_iterable.2.1 (.nonIterable "3") false rfl⟩

/-! ## C2: source isolation -/

/-- Counterexample to C2 as stated: the transformer does not strip decorators
*only* from the test procedure's definition and it does not leave class
definitions unmodified — `generic_visit` recurses into a class body and
`visit_FunctionDef` strips the method's decorators there, so on a module with
a helper class the output differs from the spec's description. -/
theorem isolation_strips_beyond_procedure_counterexample :
    transformStmts
        [.funcDef "test_x" ["mpi_decor"] [.simple "pass"],
          .classDef "Helper" [] [.funcDef "util" ["staticmethod"] [.simple "pass"]]] ≠
      specIsolate "test_x"
        [.funcDef "test_x" ["mpi_decor"] [.simple "pass"],
          .classDef "Helper" [] [.funcDef "util" ["staticmethod"] [.simple "pass"]]] := by
  intro h
  exact absurd (congrArg stmtsDecorCount h) (by decide)

/-- **C2 (amended).** On modules whose only top-level function definition is
the test procedure itself and which contain no top-level class definition —
the documented shape of a test file — the transformer behaves exactly as the
spec describes: decorators are stripped from the procedure's definition, the
`MPITest*` imports are dropped, and every other statement (in particular the
whole procedure body, nested definitions, nested imports and all other
imports) is left unmodified. -/
theorem transformStmts_eq_specIsolate_of_flat (procName : String) (stmts : List PyStmt)
    (h : stmts.all (flatStmtOk procName) = true) :
    transformStmts stmts = specIsolate procName stmts := by
  induction stmts with
  | nil => rfl
  | cons s rest ih =>
      rw [List.all_cons, Bool.and_eq_true] at h
      obtain ⟨hs, hrest⟩ := h
      have ih' := ih hrest
      rw [specIsolate] at ih' ⊢
      cases s with
      | funcDef name decorators body =>
          have hname : name = procName := by simpa [flatStmtOk] using hs
          subst hname
          simp [transformStmts, transformStmt, List.filterMap_cons, ih']
      | classDef name decorators body => simp [flatStmtOk] at hs
      | importStmt aliases =>
          simp only [transformStmts, transformStmt, List.filterMap_cons]
          cases hal : aliases.any isMPITestAlias with
          | true => exact ih'
          | false => exact congrArg (List.cons _) ih'
      | importFrom module aliases =>
          simp only [transformStmts, transformStmt, List.filterMap_cons]
          cases hal : aliases.any isMPITestAlias with
          | true => exact ih'
          | false => exact congrArg (List.cons _) ih'
      | simple code =>
          simp [transformStmts, transformStmt, List.filterMap_cons, ih']

/-- Witness for C2 (amended): a test file with the decorated procedure (whose
body holds a decorated nested function and a nested `MPITest*` import, both
kept), two framework imports (dropped), an ordinary import and a constant
(kept). -/
theorem transformStmts_eq_specIsolate_of_flat_witness :
    transformStmts
        [.funcDef "test_f" ["MPITestAssertEqual([1,2,4])"]
            [.funcDef "inner" ["functools.wraps(g)"] [.simple "pass"],
              .importStmt ["MPITestNested"], .simple "import nest"],
          .importStmt ["MPITestAssertEqual"],
          .importFrom "mpi_test_wrapper" ["MPITestAssertEqual"],
          .importStmt ["numpy"],
          .simple "CONST = 1"] =
      specIsolate "test_f"
        [.funcDef "test_f" ["MPITestAssertEqual([1,2,4])"]
            [.funcDef "inner" ["functools.wraps(g)"] [.simple "pass"],
              .importStmt ["MPITestNested"], .simple "import nest"],
          .importStmt ["MPITestAssertEqual"],
          .importFrom "mpi_test_wrapper" ["MPITestAssertEqual"],
          .importStmt ["numpy"],
          .simple "CONST = 1"] :=
  transformStmts_eq_specIsolate_of_flat "test_f" _ (by decide)

/-! ## C8: idempotence of isolation -/

/-- **C8.** For a module that already contains no decorators and no
`MPITest*` imports anywhere, isolating twice gives the same tree as isolating
once (the single pass is already the identity there, so a second application
changes nothing). -/
theorem isolation_idempotent_on_clean (stmts : List PyStmt)
    (h : stmtsClean stmts = true) :
    transformStmts (transformStmts stmts) = transformStmts stmts := by
  rw [transformStmts_of_clean stmts h]
  exact transformStmts_of_clean stmts h

/-- Witness for C8: an already-isolated module. -/
theorem isolation_idempotent_on_clean_witness :
    transformStmts
        (transformStmts
          [.funcDef "test_f" [] [.simple "import nest", .funcDef "inner" [] [.simple "pass"]],
            .importStmt ["numpy"]]) =
      transformStmts
        [.funcDef "test_f" [] [.simple "import nest", .funcDef "inner" [] [.simple "pass"]],
          .importStmt ["numpy"]] :=
  isolation_idempotent_on_clean _ (by decide)

/-! ## C4: argument rendering -/

theorem natRepr_length_pos (m : Nat) : 0 < (Nat.repr m).length := by
  show 0 < (Nat.toDigits 10 m).length
  unfold Nat.toDigits
  simp only [Nat.toDigitsCore]
  by_cases h : m / 10 = 0
  · simp [h]
  · simp only [h, if_false]
    rw [Nat.toDigitsCore_lens_eq]
    omega

theorem intToString_ne_empty (n : Int) : toString n ≠ "" := by
  have hpos : 0 < (toString n).length := by
    show 0 < (Int.repr n).length
    cases n with
    | ofNat m => exact natRepr_length_pos m
    | negSucc m =>
        show 0 < ("-" ++ Nat.repr m.succ).length
        rw [String.length_append]
        have hdash : ("-" : String).length = 1 := rfl
        omega
  intro h
  rw [h] at hpos
  exact absurd hpos (by simp)

theorem renderArg_eq_specRenderArg (v : PyVal) (h : okVal v = true) :
    renderArg v = specRenderArg v := by
  cases v <;> simp_all [okVal, renderArg, specRenderArg, pyStr, pyRepr, pyIsFunction, pyFuncName]

theorem renderArg_ne_empty (v : PyVal) (h : okVal v = true) : renderArg v ≠ "" := by
  cases v with
  | intV n => exact intToString_ne_empty n
  | strV s => simp [okVal] at h
  | funcV name =>
      simp only [okVal, Bool.not_eq_true', beq_eq_false_iff_ne, ne_eq] at h
      simpa [renderArg, pyIsFunction, pyFuncName] using h

theorem kwPiece_ne_empty (k r : String) : k ++ "=" ++ r ≠ "" := by
  intro h
  have hlen := congrArg String.length h
  have heq : ("=" : String).length = 1 := rfl
  have hnil : ("" : String).length = 0 := rfl
  rw [String.length_append, String.length_append, heq, hnil] at hlen
  omega

theorem joinComma_ne_empty (l : List String) (hne : l ≠ []) (h : ∀ p ∈ l, p ≠ "") :
    joinComma l ≠ "" := by
  cases l with
  | nil => contradiction
  | cons p rest =>
      cases rest with
      | nil => exact h p (by simp)
      | cons q rest2 =>
          show p ++ ", " ++ joinComma (q :: rest2) ≠ ""
          intro habs
          have hlen := congrArg String.length habs
          have hsep : (", " : String).length = 2 := rfl
          have hnil : ("" : String).length = 0 := rfl
          rw [String.length_append, String.length_append, hsep, hnil] at hlen
          omega

theorem joinComma_append (l1 l2 : List String) (h1 : l1 ≠ []) (h2 : l2 ≠ []) :
    joinComma (l1 ++ l2) = joinComma l1 ++ ", " ++ joinComma l2 := by
  induction l1 with
  | nil => contradiction
  | cons p rest ih =>
      cases rest with
      | nil =>
          cases l2 with
          | nil => contradiction
          | cons q r => rfl
      | cons q rest2 =>
          have ihr := ih (by simp)
          show p ++ ", " ++ joinComma ((q :: rest2) ++ l2) = _
          rw [ihr]
          simp [joinComma, String.append_assoc]

theorem filter_ne_keep (A : String) (l : List String) (h : A ≠ "") :
    List.filter (fun x => decide (x ≠ "")) (A :: l) =
      A :: List.filter (fun x => decide (x ≠ "")) l := by
  simp [List.filter_cons, h]

theorem filter_empty_drop (l : List String) :
    List.filter (fun x => decide (x ≠ "")) ("" :: l) =
      List.filter (fun x => decide (x ≠ "")) l := by
  simp [List.filter_cons]

/-- Counterexample to C4 as stated: a string-valued literal argument is
rendered by `str` inside the f-string, i.e. without quotes, which is not its
literal representation — rerunning the rendered call text would not rebuild
the value. -/
theorem paramsAsStr_string_arg_counterexample :
    paramsAsStr [.strV "x"] [] ≠ specParamsAsStr [.strV "x"] [] := by decide

/-- **C4 (amended).** Rendering puts positional arguments first and keyword
arguments as `key=value` pairs after them; a callable argument is rendered by
its name and a non-callable one by `str`, which coincides with the literal
representation for non-string values — so on argument lists free of string
values (with callables carrying a non-empty name) the rendering is exactly
the spec's, and in particular `(3, key=4)` produces the call text
`f(3, key=4)` and a callable named `myfunc` renders as `myfunc`. -/
theorem paramsAsStr_spec_behaviour :
    callText "f" [.intV 3] [("key", .intV 4)] = "f(3, key=4)" ∧
      renderArg (.funcV "myfunc") = "myfunc" ∧
      ∀ args kwargs, args.all okVal = true → (kwargs.all fun kv => okVal kv.2) = true →
        paramsAsStr args kwargs = specParamsAsStr args kwargs := by
  refine ⟨rfl, rfl, fun args kwargs ha hk => ?_⟩
  have hA : args.map renderArg = args.map specRenderArg :=
    List.map_congr_left fun v hv =>
      renderArg_eq_specRenderArg v (List.all_eq_true.mp ha v hv)
  have hK : (kwargs.map fun kv => kv.1 ++ "=" ++ renderArg kv.2) =
      kwargs.map fun kv => kv.1 ++ "=" ++ specRenderArg kv.2 :=
    List.map_congr_left fun kv hkv => by
      rw [renderArg_eq_specRenderArg kv.2 (List.all_eq_true.mp hk kv hkv)]
  cases args with
  | nil =>
      cases kwargs with
      | nil => rfl
      | cons kv rest =>
          have hpk : joinComma ((kv :: rest).map fun kv => kv.1 ++ "=" ++ renderArg kv.2) ≠ "" :=
            joinComma_ne_empty _ (by simp) (by
              intro p hp
              simp only [List.mem_map] at hp
              obtain ⟨kv', _, rfl⟩ := hp
              exact kwPiece_ne_empty _ _)
          rw [hK] at hpk
          simp only [paramsAsStr, specParamsAsStr, List.map_nil, List.nil_append, hK]
          rw [show joinComma ([] : List String) = "" from rfl, filter_empty_drop,
            filter_ne_keep _ _ hpk]
          rfl
  | cons a rest =>
      have hpa : joinComma ((a :: rest).map renderArg) ≠ "" :=
        joinComma_ne_empty _ (by simp) (by
          intro p hp
          simp only [List.mem_map] at hp
          obtain ⟨v, hv, rfl⟩ := hp
          exact renderArg_ne_empty v (List.all_eq_true.mp ha v hv))
      rw [hA] at hpa
      cases kwargs with
      | nil =>
          simp only [paramsAsStr, specParamsAsStr, List.map_nil, List.append_nil, hA]
          rw [show joinComma ([] : List String) = "" from rfl, filter_ne_keep _ _ hpa,
            filter_empty_drop]
          rfl
      | cons kv rest2 =>
          have hpk : joinComma ((kv :: rest2).map fun kv => kv.1 ++ "=" ++ renderArg kv.2) ≠ "" :=
            joinComma_ne_empty _ (by simp) (by
              intro p hp
              simp only [List.mem_map] at hp
              obtain ⟨kv', _, rfl⟩ := hp
              exact kwPiece_ne_empty _ _)
          rw [hK] at hpk
          simp only [paramsAsStr, specParamsAsStr, hA, hK]
          rw [filter_ne_keep _ _ hpa, filter_ne_keep _ _ hpk,
            joinComma_append _ _ (by simp) (by simp)]
          rfl

/-- Witness for C4 (amended): integer and callable arguments. -/
theorem paramsAsStr_spec_behaviour_witness :
    paramsAsStr [.intV 3, .funcV "myfunc"] [("key", .intV 4), ("cb", .funcV "g")] =
      specParamsAsStr [.intV 3, .funcV "myfunc"] [("key", .intV 4), ("cb", .funcV "g")] :=
  paramsAsStr_spec_behaviour.2.2 [.intV 3, .funcV "myfunc"]
    [("key", .intV 4), ("cb", .funcV "g")] (by decide) (by decide)

/-! ## Collector machinery shared by C5 and C10 -/

theorem pyFormat_some_arity (tmpl a b a' b' r : List Char)
    (h : pyFormat tmpl [a, b] = some r) : ∃ r', pyFormat tmpl [a', b'] = some r' := by
  unfold pyFormat at h ⊢
  simp only [List.length_cons, List.length_nil] at h ⊢
  by_cases hc : (splitFmt tmpl).length ≤ 0 + 1 + 1 + 1
  · refine ⟨interleaveFmt (splitFmt tmpl) [a', b'], ?_⟩
    simp [hc]
  · simp [hc] at h

/-- `collectLevels` succeeds whenever the per-level format arity is fine, and
its result holds one entry per configured level, in order, with the frames
parsed for that level's pattern. -/
theorem collectLevels_ok_of_arity (fs : List DatFile) (lbl : List Char) (procs : List Nat)
    (h : ∀ m ∈ procs, ∃ pm, pyFormat lbl [natStr m, starStr] = some pm) :
    ∃ per, collectLevels fs lbl procs = .ok per ∧
      ∀ m ∈ procs, ∀ pm, pyFormat lbl [natStr m, starStr] = some pm →
        (m, levelFrames fs pm) ∈ per := by
  induction procs with
  | nil => exact ⟨[], rfl, by simp⟩
  | cons m rest ih =>
      obtain ⟨pm0, hm0⟩ := h m (List.mem_cons_self m rest)
      obtain ⟨perR, hR, hmemR⟩ := ih fun m' hm' => h m' (List.mem_cons_of_mem m hm')
      refine ⟨(m, levelFrames fs pm0) :: perR, ?_, ?_⟩
      · unfold collectLevels
        rw [hm0, hR]
        rfl
      · intro m' hm' pm hpm
        rcases List.mem_cons.mp hm' with rfl | hm'
        · rw [hm0] at hpm
          cases hpm
          exact List.mem_cons_self _ _
        · exact List.mem_cons_of_mem _ (hmemR m' hm' pm hpm)

/-- The collector takes the data branch (not the `None` branch) as soon as
one file matches the fully wildcarded pattern. -/
theorem collectResultByLabel_data (fs : List DatFile) (procs : List Nat)
    (label lbl patAll : List Char)
    (hnorm : normalizeLabel label = .ok lbl)
    (hpatAll : pyFormat lbl [starStr, starStr] = some patAll)
    (g : DatFile) (hg : g ∈ fs) (hmatch : globMatch patAll g.name = true)
    (per : PerLevel) (hlev : collectLevels fs lbl procs = .ok per) :
    collectResultByLabel fs procs label = .ok (some per) := by
  unfold collectResultByLabel
  rw [exceptBind_ok (h := hnorm), hpatAll]
  have hcond : (fs.all fun f => !globMatch patAll f.name) = false := by
    rw [List.all_eq_false]
    exact ⟨g, hg, by rw [hmatch]; decide⟩
  simp only [hcond, Bool.false_eq_true, if_false, hlev]
  rfl

theorem mem_levelFrames (fs : List DatFile) (patLevel : List Char) (f : DatFile) (fr : Frame)
    (hf : f ∈ fs) (hmatch : globMatch patLevel f.name = true)
    (hread : readCsv f.lines = .ok fr) : fr ∈ levelFrames fs patLevel := by
  unfold levelFrames
  rw [List.mem_filterMap]
  exact ⟨f, List.mem_filter.mpr ⟨hf, hmatch⟩, by rw [hread]; rfl⟩

theorem levelFrames_nil_of_all_error (fs : List DatFile) (patLevel : List Char)
    (h : ∀ g ∈ fs, globMatch patLevel g.name = true → readCsv g.lines = .error .emptyData) :
    levelFrames fs patLevel = [] := by
  unfold levelFrames
  rw [List.filterMap_eq_nil_iff]
  intro g hg
  obtain ⟨hg', hmatch⟩ := List.mem_filter.mp hg
  rw [h g hg' hmatch]
  rfl

/-! ## C5: files with no data rows -/

/-- Counterexample to C5 as stated: a matching file whose content gives
`read_csv` nothing to parse (here: a comment-only file) is *skipped* by the
`except EmptyDataError: pass` handler — the level's frame list stays empty
instead of receiving an empty frame. -/
theorem collect_skips_unparseable_file_counterexample :
    collectResultByLabel [⟨"other-1-0.dat".data, ["# empty".data]⟩] [1] otherLabel =
      .ok (some [(1, [])]) := rfl

/-- **C5 (amended).** A file matching a level's pattern never raises out of
the collector: if `read_csv` yields a frame — in particular an empty frame
for a header-only file — that frame is included in the level's frame list;
a matching file on which `read_csv` raises `EmptyDataError` (no parseable
content at all) is skipped silently, and if all of a level's matching files
are such, the level's list is empty. -/
theorem collect_no_data_rows_amended (fs : List DatFile) (procs : List Nat)
    (label lbl patAll patLevel : List Char) (n : Nat) (f : DatFile)
    (hn : n ∈ procs) (hf : f ∈ fs)
    (hnorm : normalizeLabel label = .ok lbl)
    (hpatAll : pyFormat lbl [starStr, starStr] = some patAll)
    (hpatLevel : pyFormat lbl [natStr n, starStr] = some patLevel)
    (hmatchAll : globMatch patAll f.name = true)
    (hmatchLevel : globMatch patLevel f.name = true) :
    ∃ per, collectResultByLabel fs procs label = .ok (some per) ∧
      (n, levelFrames fs patLevel) ∈ per ∧
      (∀ fr, readCsv f.lines = .ok fr → fr ∈ levelFrames fs patLevel) ∧
      ((∀ g ∈ fs, globMatch patLevel g.name = true → readCsv g.lines = .error .emptyData) →
        levelFrames fs patLevel = []) := by
  have harity : ∀ m ∈ procs, ∃ pm, pyFormat lbl [natStr m, starStr] = some pm := fun m _ =>
    pyFormat_some_arity lbl (natStr n) starStr (natStr m) starStr patLevel hpatLevel
  obtain ⟨per, hlev, hmem⟩ := collectLevels_ok_of_arity fs lbl procs harity
  refine ⟨per, collectResultByLabel_data fs procs label lbl patAll hnorm hpatAll f hf
    hmatchAll per hlev, hmem n hn patLevel hpatLevel, ?_, ?_⟩
  · intro fr hread
    exact mem_levelFrames fs patLevel f fr hf hmatchLevel hread
  · exact levelFrames_nil_of_all_error fs patLevel

/-- Witness for C5 (amended): `other-1-0.dat` holds only a header line, so
its frame has columns but no rows and is collected for level 1. -/
theorem collect_no_data_rows_amended_witness :
    ∃ per,
      collectResultByLabel [⟨"other-1-0.dat".data, ["colA\tcolB".data]⟩] [1] otherLabel =
          .ok (some per) ∧
        (1, levelFrames [⟨"other-1-0.dat".data, ["colA\tcolB".data]⟩] ("other-1-*.dat".data)) ∈
          per ∧
        (∀ fr, readCsv [("colA\tcolB".data)] = .ok fr →
          fr ∈ levelFrames [⟨"other-1-0.dat".data, ["colA\tcolB".data]⟩] ("other-1-*.dat".data)) ∧
        ((∀ g ∈ [(⟨"other-1-0.dat".data, ["colA\tcolB".data]⟩ : DatFile)],
            globMatch ("other-1-*.dat".data) g.name = true →
              readCsv g.lines = .error .emptyData) →
          levelFrames [⟨"other-1-0.dat".data, ["colA\tcolB".data]⟩] ("other-1-*.dat".data) = []) :=
  collect_no_data_rows_amended [⟨"other-1-0.dat".data, ["colA\tcolB".data]⟩] [1] otherLabel
    otherLabel ("other-*-*.dat".data) ("other-1-*.dat".data) 1
    ⟨"other-1-0.dat".data, ["colA\tcolB".data]⟩ (by decide) (by decide) rfl rfl rfl rfl rfl

/-! ## C10: a level with an empty frame list makes the comparator raise -/

theorem mapCombinedSorted_error_of_empty_level (cols : List (List Char)) (per : PerLevel)
    (m : Nat) (hmem : (m, ([] : List Frame)) ∈ per) :
    ∃ e, mapCombinedSorted cols per = .error e := by
  induction per with
  | nil => simp at hmem
  | cons p rest ih =>
      rcases List.mem_cons.mp hmem with heq | hmem'
      · refine ⟨.valueError, ?_⟩
        rw [← heq]
        rfl
      · obtain ⟨e, he⟩ := ih hmem'
        cases hc : combinedSorted cols p.2 with
        | error e2 =>
            refine ⟨e2, ?_⟩
            unfold mapCombinedSorted
            rw [hc]
            rfl
        | ok f =>
            refine ⟨e, ?_⟩
            unfold mapCombinedSorted
            rw [hc, exceptBind_ok (h := rfl), he]
            rfl

/-- The spike kind with a level whose frame list is empty: `pd.concat([])`
raises, so the whole comparison raises. -/
theorem assertEqual_error_spike_empty_level (procs : List Nat) (multi other : Option PerLevel)
    (per : PerLevel) (m : Nat) (hne : per ≠ []) (hmem : (m, ([] : List Frame)) ∈ per) :
    assertEqualResults procs (some per) multi other ≠ .ok () := by
  obtain ⟨e, he⟩ := mapCombinedSorted_error_of_empty_level spikeSortBy per m hmem
  cases per with
  | nil => exact absurd rfl hne
  | cons q qr =>
      unfold assertEqualResults spikeBlock
      simp only [List.isEmpty_cons, Bool.false_eq_true, if_false, he, Except.map, Except.bind]
      intro h
      exact Except.noConfusion h

/-- The generic kind with a level whose frame list is empty: either the first
level's list is empty (`[0]` raises `IndexError`) or `pd.concat([])` raises
for that level; the comparison never returns success. -/
theorem assertEqual_error_other_empty_level (procs : List Nat) (spike multi : Option PerLevel)
    (per : PerLevel) (m : Nat) (hne : per ≠ []) (hmem : (m, ([] : List Frame)) ∈ per) :
    assertEqualResults procs spike multi (some per) ≠ .ok () := by
  unfold assertEqualResults
  cases hsb : spikeBlock spike with
  | error e => simp [Except.bind]
  | ok acc1 =>
      simp only [Except.bind]
      cases hmb : multiBlock multi with
      | error e => simp [Except.bind]
      | ok u =>
          simp only [Except.bind]
          cases per with
          | nil => exact absurd rfl hne
          | cons p0 pr =>
              obtain ⟨k0, fl0⟩ := p0
              cases fl0 with
              | nil =>
                  unfold otherBlock
                  simp [Except.bind]
              | cons f0 fl =>
                  obtain ⟨e, he⟩ :=
                    mapCombinedSorted_error_of_empty_level f0.columns ((k0, f0 :: fl) :: pr) m hmem
                  unfold otherBlock
                  simp [he, Except.map, Except.bind]

/-- **C10.** When some file matches a kind's wildcarded pattern but every
file matching a given configured level's pattern has no parseable content,
the collector still records that level with an *empty* frame list; and any
collected kind containing a level with an empty frame list makes the
comparator raise (for the generic kind via `IndexError` on the first level or
`ValueError` from `pd.concat([])`; likewise for the spike kind) instead of
passing. -/
theorem collect_empty_level_and_comparator_error (fs : List DatFile) (procs : List Nat)
    (label lbl patAll patLevel : List Char) (n : Nat)
    (hn : n ∈ procs)
    (hnorm : normalizeLabel label = .ok lbl)
    (hpatAll : pyFormat lbl [starStr, starStr] = some patAll)
    (hpatLevel : pyFormat lbl [natStr n, starStr] = some patLevel)
    (g : DatFile) (hg : g ∈ fs) (hmatchAll : globMatch patAll g.name = true)
    (hallerr : ∀ g' ∈ fs, globMatch patLevel g'.name = true →
      readCsv g'.lines = .error .emptyData) :
    (∃ per, collectResultByLabel fs procs label = .ok (some per) ∧
      (n, ([] : List Frame)) ∈ per) ∧
      (∀ (procs2 : List Nat) (spike multi : Option PerLevel) (per2 : PerLevel) (m : Nat),
        per2 ≠ [] → (m, ([] : List Frame)) ∈ per2 →
          assertEqualResults procs2 spike multi (some per2) ≠ .ok ()) ∧
      (∀ (procs2 : List Nat) (multi other : Option PerLevel) (per2 : PerLevel) (m : Nat),
        per2 ≠ [] → (m, ([] : List Frame)) ∈ per2 →
          assertEqualResults procs2 (some per2) multi other ≠ .ok ()) := by
  refine ⟨?_, fun procs2 spike multi per2 m hne hmem =>
    assertEqual_error_other_empty_level procs2 spike multi per2 m hne hmem,
    fun procs2 multi other per2 m hne hmem =>
    assertEqual_error_spike_empty_level procs2 multi other per2 m hne hmem⟩
  have harity : ∀ m ∈ procs, ∃ pm, pyFormat lbl [natStr m, starStr] = some pm := fun m _ =>
    pyFormat_some_arity lbl (natStr n) starStr (natStr m) starStr patLevel hpatLevel
  obtain ⟨per, hlev, hmem⟩ := collectLevels_ok_of_arity fs lbl procs harity
  refine ⟨per, collectResultByLabel_data fs procs label lbl patAll hnorm hpatAll g hg
    hmatchAll per hlev, ?_⟩
  have := hmem n hn patLevel hpatLevel
  rwa [levelFrames_nil_of_all_error fs patLevel hallerr] at this

/-- Witness for C10: a directory holding generic data only for level 2 while
levels `[1, 2]` are configured; level 1 gets an empty list, and a collected
structure with such a level is rejected by the comparator. -/
theorem collect_empty_level_and_comparator_error_witness :
    (∃ per,
      collectResultByLabel [⟨"other-2-0.dat".data, ["a\tb".data, "1\t2".data]⟩] [1, 2]
          otherLabel = .ok (some per) ∧ (1, ([] : List Frame)) ∈ per) ∧
      assertEqualResults [1, 2] none none
          (some [(1, []), (2, [⟨["a".data, "b".data], [[1, 2]]⟩])]) ≠ .ok () := by
  have h := collect_empty_level_and_comparator_error
    [⟨"other-2-0.dat".data, ["a\tb".data, "1\t2".data]⟩] [1, 2] otherLabel otherLabel
    ("other-*-*.dat".data) ("other-1-*.dat".data) 1 (by decide) rfl rfl rfl
    ⟨"other-2-0.dat".data, ["a\tb".data, "1\t2".data]⟩ (by decide) rfl
    (by
      intro g' hg' hmatch
      simp only [List.mem_singleton] at hg'
      subst hg'
      exact absurd hmatch (by decide))
  exact ⟨h.1, h.2.1 [1, 2] none none [(1, []), (2, [⟨["a".data, "b".data], [[1, 2]]⟩])] 1
    (by decide) (by decide)⟩

/-! ## C1: the comparator characterisation -/

theorem mapCombinedSorted_length (cols : List (List Char)) (per : PerLevel) (fr : List Frame)
    (h : mapCombinedSorted cols per = .ok fr) : fr.length = per.length := by
  induction per generalizing fr with
  | nil =>
      simp only [mapCombinedSorted] at h
      cases h
      rfl
  | cons p rest ih =>
      unfold mapCombinedSorted at h
      cases hc : combinedSorted cols p.2 with
      | error e =>
          rw [hc] at h
          exact absurd h (by simp [Except.bind])
      | ok f =>
          rw [hc] at h
          simp only [Except.bind] at h
          cases hr : mapCombinedSorted cols rest with
          | error e =>
              rw [hr] at h
              exact absurd h (by simp [Except.map])
          | ok tl =>
              rw [hr] at h
              simp only [Except.map] at h
              cases h
              simp [ih tl hr]

theorem checkOne_cons_ok_iff (procs : List Nat) (r0 : Frame) (rest : List Frame) :
    checkOne procs (r0 :: rest) = .ok () ↔
      ((r0 :: rest).length = procs.length ∧ ∀ r ∈ rest, r = r0) := by
  unfold checkOne
  simp only [checkRest]
  by_cases hlen : (r0 :: rest).length = procs.length
  · rw [if_pos hlen]
    by_cases hall : (rest.all fun r => decide (r = r0)) = true
    · rw [if_pos hall]
      simp only [true_iff, hlen, true_and]
      intro r hr
      exact of_decide_eq_true (List.all_eq_true.mp hall r hr)
    · rw [if_neg hall]
      simp only [hlen, true_and]
      constructor
      · intro h
        exact absurd h (by simp)
      · intro hforall
        exact absurd (List.all_eq_true.mpr fun r hr => decide_eq_true (hforall r hr)) hall
  · rw [if_neg hlen]
    simp only [hlen, false_and, iff_false]
    intro h
    exact absurd h (by simp)

theorem checkAll_ok_iff (procs : List Nat) (l : List (List Frame)) :
    checkAll procs l = .ok () ↔ ∀ res ∈ l, checkOne procs res = .ok () := by
  induction l with
  | nil => simp [checkAll]
  | cons a rest ih =>
      unfold checkAll
      cases hc : checkOne procs a with
      | error e => simp [Except.bind, hc]
      | ok u =>
          cases u
          simp [Except.bind, hc, ih]

theorem kindOk_iff (procs : List Nat) (k : List (List Char)) (p : Nat × List Frame)
    (ps : PerLevel) :
    (∃ fr, mapCombinedSorted k (p :: ps) = .ok fr ∧ checkOne procs fr = .ok ()) ↔
      levelsOk procs k (p :: ps) := by
  constructor
  · rintro ⟨fr, hm, hc⟩
    cases fr with
    | nil =>
        have := mapCombinedSorted_length k (p :: ps) [] hm
        simp at this
    | cons f0 frest =>
        obtain ⟨hlen, hall⟩ := (checkOne_cons_ok_iff procs f0 frest).mp hc
        exact ⟨f0, frest, hm, hlen, hall⟩
  · rintro ⟨f0, frest, hm, hlen, hall⟩
    exact ⟨f0 :: frest, hm, (checkOne_cons_ok_iff procs f0 frest).mpr ⟨hlen, hall⟩⟩

theorem checkOne_of_mapCS (procs : List Nat) (k : List (List Char)) (p : Nat × List Frame)
    (ps : PerLevel) (fr : List Frame) (hm : mapCombinedSorted k (p :: ps) = .ok fr) :
    (checkOne procs fr = .ok ()) ↔ levelsOk procs k (p :: ps) := by
  constructor
  · intro hc
    exact (kindOk_iff procs k p ps).mp ⟨fr, hm, hc⟩
  · rintro ⟨f0, frest, hm', hlen, hall⟩
    rw [hm] at hm'
    injection hm' with h
    subst h
    exact (checkOne_cons_ok_iff procs f0 frest).mpr ⟨hlen, hall⟩

theorem spikeBlock_falsy (spike : Option PerLevel) (h : ¬ perTruthy spike) :
    spikeBlock spike = .ok [] := by
  cases spike with
  | none => rfl
  | some sp =>
      cases sp with
      | nil => rfl
      | cons q qr => exact absurd (by simp [perTruthy]) h

theorem otherBlock_falsy (other : Option PerLevel) (acc : List (List Frame))
    (h : ¬ perTruthy other) : otherBlock other acc = .ok acc := by
  cases other with
  | none => rfl
  | some ot =>
      cases ot with
      | nil => rfl
      | cons p pr => exact absurd (by simp [perTruthy]) h

/-- **C1.** With no per-sample-measurement data collected, the equivalence
comparison succeeds exactly when (a) at least one kind holds data, (b) for the
time-series-event kind, concatenating each level's frames and sorting the rows
by `time_step`, `time_offset`, `sender` succeeds, yields one frame per
configured level, and every level's combined-sorted frame equals the first
level's, and (c) for the generic kind, the same holds with the sort key being
all columns of the first collected frame in their existing order. -/
theorem mpiAssertEqual_combined_sorted_characterisation (procs : List Nat)
    (spike other : Option PerLevel) :
    assertEqualResults procs spike none other = .ok () ↔
      ((perTruthy spike ∨ perTruthy other) ∧
        (perTruthy spike → levelsOk procs spikeSortBy (spike.getD [])) ∧
        (perTruthy other → ∃ f0, firstOtherFrame (other.getD []) = some f0 ∧
          levelsOk procs f0.columns (other.getD []))) := by
  by_cases hs : perTruthy spike
  · obtain ⟨sp, rfl⟩ : ∃ sp, spike = some sp := by
      cases spike with
      | none => exact absurd hs (by simp [perTruthy])
      | some sp => exact ⟨sp, rfl⟩
    obtain ⟨s0, ss, rfl⟩ : ∃ s0 ss, sp = s0 :: ss := by
      cases sp with
      | nil => exact absurd hs (by simp [perTruthy])
      | cons s0 ss => exact ⟨s0, ss, rfl⟩
    cases hm1 : mapCombinedSorted spikeSortBy (s0 :: ss) with
    | error e =>
        have hlev1 : ¬ levelsOk procs spikeSortBy (s0 :: ss) := by
          rintro ⟨f0, frest, hm', _, _⟩
          rw [hm1] at hm'
          exact Except.noConfusion hm'
        have hlhs : assertEqualResults procs (some (s0 :: ss)) none other = .error e := by
          unfold assertEqualResults spikeBlock
          simp [hm1, multiBlock, Except.map, Except.bind]
        rw [hlhs]
        simp only [perTruthy, Option.getD_some]
        simp [hlev1]
    | ok fr1 =>
        by_cases ho : perTruthy other
        · obtain ⟨ot, rfl⟩ : ∃ ot, other = some ot := by
            cases other with
            | none => exact absurd ho (by simp [perTruthy])
            | some ot => exact ⟨ot, rfl⟩
          obtain ⟨p0, pr, rfl⟩ : ∃ p0 pr, ot = p0 :: pr := by
            cases ot with
            | nil => exact absurd ho (by simp [perTruthy])
            | cons p0 pr => exact ⟨p0, pr, rfl⟩
          obtain ⟨k0, fl0⟩ := p0
          cases fl0 with
          | nil =>
              have hlhs : assertEqualResults procs (some (s0 :: ss)) none
                  (some ((k0, []) :: pr)) = .error .indexError := by
                unfold assertEqualResults spikeBlock otherBlock
                simp [hm1, multiBlock, Except.map, Except.bind]
              rw [hlhs]
              simp [perTruthy, firstOtherFrame]
          | cons f0 fl =>
              cases hm2 : mapCombinedSorted f0.columns ((k0, f0 :: fl) :: pr) with
              | error e2 =>
                  have hlev2 : ¬ levelsOk procs f0.columns ((k0, f0 :: fl) :: pr) := by
                    rintro ⟨g0, grest, hm', _, _⟩
                    rw [hm2] at hm'
                    exact Except.noConfusion hm'
                  have hlhs : assertEqualResults procs (some (s0 :: ss)) none
                      (some ((k0, f0 :: fl) :: pr)) = .error e2 := by
                    unfold assertEqualResults spikeBlock otherBlock
                    simp [hm1, hm2, multiBlock, Except.map, Except.bind]
                  rw [hlhs]
                  simp [perTruthy, firstOtherFrame, hlev2]
              | ok fr2 =>
                  have hlhs : assertEqualResults procs (some (s0 :: ss)) none
                      (some ((k0, f0 :: fl) :: pr)) = checkAll procs [fr1, fr2] := by
                    unfold assertEqualResults spikeBlock otherBlock
                    simp [hm1, hm2, multiBlock, Except.map, Except.bind, checkAll]
                  rw [hlhs, checkAll_ok_iff]
                  simp only [List.mem_cons, List.mem_singleton, List.not_mem_nil,
                    forall_eq_or_imp, forall_eq, List.mem_nil_iff, or_false]
                  rw [checkOne_of_mapCS procs spikeSortBy s0 ss fr1 hm1,
                    checkOne_of_mapCS procs f0.columns (k0, f0 :: fl) pr fr2 hm2]
                  simp [perTruthy, firstOtherFrame]
        · have hob : otherBlock other [fr1] = .ok [fr1] := otherBlock_falsy other [fr1] ho
          have hlhs : assertEqualResults procs (some (s0 :: ss)) none other =
              checkAll procs [fr1] := by
            unfold assertEqualResults spikeBlock
            simp [hm1, multiBlock, Except.map, Except.bind, hob, checkAll]
          have ho' : other.getD [] = [] := not_not.mp (by simpa [perTruthy, ne_eq] using ho)
          rw [hlhs, checkAll_ok_iff]
          simp only [List.mem_singleton, forall_eq]
          rw [checkOne_of_mapCS procs spikeSortBy s0 ss fr1 hm1]
          simp [perTruthy, ho']
  · by_cases ho : perTruthy other
    · obtain ⟨ot, rfl⟩ : ∃ ot, other = some ot := by
        cases other with
        | none => exact absurd ho (by simp [perTruthy])
        | some ot => exact ⟨ot, rfl⟩
      obtain ⟨p0, pr, rfl⟩ : ∃ p0 pr, ot = p0 :: pr := by
        cases ot with
        | nil => exact absurd ho (by simp [perTruthy])
        | cons p0 pr => exact ⟨p0, pr, rfl⟩
      obtain ⟨k0, fl0⟩ := p0
      have hsb : spikeBlock spike = .ok [] := spikeBlock_falsy spike hs
      cases fl0 with
      | nil =>
          have hlhs : assertEqualResults procs spike none (some ((k0, []) :: pr)) =
              .error .indexError := by
            unfold assertEqualResults otherBlock
            simp [hsb, multiBlock, Except.map, Except.bind]
          rw [hlhs]
          simp [perTruthy, firstOtherFrame, hs]
      | cons f0 fl =>
          cases hm2 : mapCombinedSorted f0.columns ((k0, f0 :: fl) :: pr) with
          | error e2 =>
              have hlev2 : ¬ levelsOk procs f0.columns ((k0, f0 :: fl) :: pr) := by
                rintro ⟨g0, grest, hm', _, _⟩
                rw [hm2] at hm'
                exact Except.noConfusion hm'
              have hlhs : assertEqualResults procs spike none
                  (some ((k0, f0 :: fl) :: pr)) = .error e2 := by
                unfold assertEqualResults otherBlock
                simp [hsb, hm2, multiBlock, Except.map, Except.bind]
              rw [hlhs]
              simp [perTruthy, firstOtherFrame, hlev2, hs]
          | ok fr2 =>
              have hlhs : assertEqualResults procs spike none
                  (some ((k0, f0 :: fl) :: pr)) = checkAll procs [fr2] := by
                unfold assertEqualResults otherBlock
                simp [hsb, hm2, multiBlock, Except.map, Except.bind, checkAll]
              have hs' : spike.getD [] = [] := not_not.mp (by simpa [perTruthy, ne_eq] using hs)
              rw [hlhs, checkAll_ok_iff]
              simp only [List.mem_singleton, forall_eq]
              rw [checkOne_of_mapCS procs f0.columns (k0, f0 :: fl) pr fr2 hm2]
              simp [perTruthy, firstOtherFrame, hs']
    · have hsb : spikeBlock spike = .ok [] := spikeBlock_falsy spike hs
      have hob : otherBlock other [] = .ok [] := otherBlock_falsy other [] ho
      have hlhs : assertEqualResults procs spike none other =
          .error (.assertionError "No test data collected") := by
        unfold assertEqualResults
        simp [hsb, hob, multiBlock, Except.bind]
      rw [hlhs]
      simp [hs, ho]

/-- Witness for C1: two levels of time-series-event data holding the same two
events with rows in a different order; both combined-sorted frames coincide
and the comparison passes. -/
theorem mpiAssertEqual_combined_sorted_characterisation_witness :
    assertEqualResults [1, 2]
        (some [(1, [⟨spikeSortBy, [[3, 1, 7], [3, 1, 5]]⟩]),
          (2, [⟨spikeSortBy, [[3, 1, 5], [3, 1, 7]]⟩])])
        none none = .ok () :=
  (mpiAssertEqual_combined_sorted_characterisation [1, 2]
      (some [(1, [⟨spikeSortBy, [[3, 1, 7], [3, 1, 5]]⟩]),
        (2, [⟨spikeSortBy, [[3, 1, 5], [3, 1, 7]]⟩])]) none).mpr
    ⟨Or.inl (by simp [perTruthy]),
      fun _ => ⟨⟨spikeSortBy, [[3, 1, 5], [3, 1, 7]]⟩, [⟨spikeSortBy, [[3, 1, 5], [3, 1, 7]]⟩],
        rfl, rfl, by simp⟩,
      fun h => absurd h (by simp [perTruthy])⟩
